import Mathlib

/-!
Verification development for the gronk/gonk music player sources.

Each Rust component relevant to the frozen claims is shallowly embedded as
executable Lean definitions, translated from the source files:

- src/gonk-player/src/rb.rs                (ring buffer)
- src/gonk-player/src/sample_rate.rs       (sample rate converter)
- src/gonk-player/src/lib.rs               (player: volume, delete_index)
- src/rodio/src/lib.rs                     (player: next/prev/volume/delete_song)
- src/gronk-player/src/queue.rs            (queue next_song / prev_song)
- src/gonk/src/app/search.rs               (fuzzy search)
- src/gonk-database/src/playlist.rs        (playlist byte format)
- src/gonk-test-database/src/main.rs       (song byte layout)
- src/gonk-database/src/sqlite.rs          (library scan add_dirs)
- src/gonk/src/main.rs                     (CLI entry)

Machine integers are modelled as Nat/Int with explicit wrapping where the
source wraps; f32 samples are modelled as exact rationals, which is faithful
for every property stated here (sample counts, pass-through identity and
control flow do not depend on float rounding); the interleaving-sensitive
ring buffer is modelled by its sequential (linearized) operation semantics.
-/

/-! ## Ring buffer, from src/gonk-player/src/rb.rs

The Rust struct stores a Vec of length len+1 (so len-1 of the stored field
is the usable capacity), an atomic write index and an atomic read index.
The buffer contents are modelled as a total function Nat -> a, written only
at indices below len.
-/

structure Rb (α : Type) where
  buf : Nat → α
  len : Nat
  write : Nat
  read : Nat

/-- Rb::new(len): allocates len + 1 slots and records len + 1 in the field. -/
def Rb.new (α : Type) [Inhabited α] (len : Nat) : Rb α :=
  ⟨fun _ => default, len + 1, 0, 0⟩

/-- Outcome of Rb::push_back, which on a full buffer first asserts
read != write and then blocks on the condition variable until a pop
signals it.  The sequential model returns the would-be-suspended state. -/
inductive PushRes (α : Type) where
  | pushed (s : Rb α)
  | blocked (s : Rb α)
  | assertFailed

def PushRes.isPushed : PushRes α → Bool
  | .pushed _ => true
  | _ => false

/-- Rb::push_back (rb.rs lines 35-57). -/
def Rb.pushBack (s : Rb α) (value : α) : PushRes α :=
  let w := s.write
  let r := s.read
  if (w + 1) % s.len = r then
    if r = w then .assertFailed else .blocked s
  else
    .pushed { s with buf := fun n => if n = w then value else s.buf n,
                     write := (w + 1) % s.len }

/-- Rb::pop_front (rb.rs lines 59-83). -/
def Rb.popFront (s : Rb α) : Option (α × Rb α) :=
  if s.read = s.write then none
  else some (s.buf s.read, { s with read := (s.read + 1) % s.len })

/-- Number of stored elements: distance from read to write modulo len. -/
def Rb.dist (s : Rb α) : Nat :=
  if s.read ≤ s.write then s.write - s.read else s.len + s.write - s.read

/-- Abstract queue contents: the samples from read (inclusive) to write
(exclusive), in arrival order. -/
def Rb.queue (s : Rb α) : List α :=
  (List.range s.dist).map (fun i => s.buf ((s.read + i) % s.len))

/-- Well-formedness: both indices stay below the physical length. -/
def Rb.Wf (s : Rb α) : Prop := s.read < s.len ∧ s.write < s.len

inductive RbOp (α : Type) where
  | push (v : α)
  | pop

/-- A sequential run: the buffer plus the values of the completed pushes
and the values returned by the completed pops. -/
structure RbRun (α : Type) where
  rb : Rb α
  accepted : List α
  outputs : List α

/-- One producer/consumer operation; a push that would suspend completes
nothing and leaves the state unchanged. -/
def RbRun.stepOp (st : RbRun α) (op : RbOp α) : RbRun α :=
  match op with
  | .push v =>
    match st.rb.pushBack v with
    | .pushed s => { st with rb := s, accepted := st.accepted ++ [v] }
    | _ => st
  | .pop =>
    match st.rb.popFront with
    | some (x, s) => { st with rb := s, outputs := st.outputs ++ [x] }
    | none => st

def Rb.runOps (α : Type) [Inhabited α] (C : Nat) (ops : List (RbOp α)) : RbRun α :=
  ops.foldl RbRun.stepOp ⟨Rb.new α C, [], []⟩

/-- Run invariant: well-formed indices, the physical length fixed at
C + 1, and the pop outputs followed by the abstract queue being exactly
the accepted pushes (FIFO, nothing lost, nothing duplicated). -/
def RbInv (C : Nat) (st : RbRun α) : Prop :=
  st.rb.Wf ∧ st.rb.len = C + 1 ∧ st.outputs ++ st.rb.queue = st.accepted

/-! ## Sample rate converter, from src/gonk-player/src/sample_rate.rs

A direct port of the rodio converter specialized to two channels.  Samples
are exact rationals.  Vec indexing that can go out of bounds is modelled by
the panicked outcome; the two unguarded while loops are run with fuel
(large enough whenever the loop in the source terminates), with fuel
exhaustion modelled as the diverged outcome.
-/

/-- The const fn gcd at the top of sample_rate.rs: gcd(a, b) is a when
b = 0 and gcd(b, a mod b) otherwise, which is exactly the recursion of
Nat.gcd with its arguments swapped. -/
def srcGcd (a b : Nat) : Nat := Nat.gcd b a

/-- The const fn lerp in sample_rate.rs. -/
def srcLerp (a b t : ℚ) : ℚ := a + t * (b - a)

structure Src where
  input : List ℚ
  fromR : Nat
  toR : Nat
  currentFrame : List ℚ
  currentFramePosInChunk : Nat
  nextFrame : List ℚ
  nextOutputFramePosInChunk : Nat
  outputBuffer : Option ℚ
deriving DecidableEq, Repr

/-- SampleRateConverter::new (sample_rate.rs lines 40-67); none models a
panic (a failed assert, or unwrap of an exhausted input). -/
def Src.mkNew (input : List ℚ) (fromRate toRate : Nat) : Option Src :=
  if fromRate < 1 ∨ toRate < 1 then none
  else
    let g := srcGcd fromRate toRate
    if fromRate = toRate then
      some ⟨input, fromRate / g, toRate / g, [], 0, [], 0, none⟩
    else
      match input with
      | a :: b :: c :: d :: rest =>
        some ⟨rest, fromRate / g, toRate / g, [a, b], 0, [c, d], 0, none⟩
      | _ => none

/-- Take up to two leading samples, as the two optional pushes do. -/
def take2 : List ℚ → List ℚ × List ℚ
  | [] => ([], [])
  | [a] => ([a], [])
  | a :: b :: rest => ([a, b], rest)

/-- SampleRateConverter::next_input_frame (lines 69-80). -/
def Src.nextInputFrame (s : Src) : Src :=
  let t := take2 s.input
  { s with currentFramePosInChunk := s.currentFramePosInChunk + 1,
           currentFrame := s.nextFrame,
           nextFrame := t.1,
           input := t.2 }

/-- Fueled form of: while current_frame_pos_in_chunk != target call
next_input_frame.  In the source the loop body increments the position by
one, so fuel fromR + 1 suffices whenever the source loop terminates. -/
def Src.advanceTo (fuel : Nat) (target : Nat) (s : Src) : Option Src :=
  match fuel with
  | 0 => none
  | f + 1 =>
    if s.currentFramePosInChunk = target then some s
    else Src.advanceTo f target s.nextInputFrame

inductive SrcStep where
  | out (v : Option ℚ) (s : Src)
  | panicked
  | diverged

/-- SampleRateConverter::next (sample_rate.rs lines 97-157). -/
def Src.next (s : Src) : SrcStep :=
  if s.fromR = s.toR then
    match s.input with
    | [] => .out none s
    | a :: rest => .out (some a) { s with input := rest }
  else
    match s.outputBuffer with
    | some o => .out (some o) { s with outputBuffer := none }
    | none =>
      let step1 : Option Src :=
        if s.nextOutputFramePosInChunk = s.toR then
          match Src.advanceTo (s.fromR + 1) s.fromR
              (Src.nextInputFrame { s with nextOutputFramePosInChunk := 0 }) with
          | some s2 => some { s2 with currentFramePosInChunk := 0 }
          | none => none
        else
          let req := (s.fromR * s.nextOutputFramePosInChunk / s.toR) % s.fromR
          Src.advanceTo (s.fromR + 1) req s
      match step1 with
      | none => .diverged
      | some s2 =>
        let numerator := (s2.fromR * s2.nextOutputFramePosInChunk) % s2.toR
        let s3 := { s2 with nextOutputFramePosInChunk := s2.nextOutputFramePosInChunk + 1 }
        if s3.nextFrame.isEmpty then
          if s3.currentFrame.isEmpty then .out none s3
          else
            match s3.currentFrame with
            | [_] => .panicked
            | x :: y :: rest =>
              .out (some x) { s3 with currentFrame := y :: rest, outputBuffer := some y }
            | [] => .panicked
        else
          match s3.currentFrame, s3.nextFrame with
          | c0 :: c1 :: _, n0 :: n1 :: _ =>
            let ratio : ℚ := (numerator : ℚ) / (s3.toR : ℚ)
            .out (some (srcLerp c0 n0 ratio)) { s3 with outputBuffer := some (srcLerp c1 n1 ratio) }
          | _, _ => .panicked

/-- How an exhaustive iteration of next ends. -/
inductive SrcEnd where
  | finished
  | panicked
  | diverged
  | fuelOut
deriving DecidableEq, Repr

/-- Iterate next, collecting every produced sample, until next returns
None (finished), panics, diverges, or the fuel runs out. -/
def Src.collect (fuel : Nat) (s : Src) : List ℚ × SrcEnd :=
  match fuel with
  | 0 => ([], .fuelOut)
  | f + 1 =>
    match s.next with
    | .out none _ => ([], .finished)
    | .out (some v) s2 =>
      let r := Src.collect f s2
      (v :: r.1, r.2)
    | .panicked => ([], .panicked)
    | .diverged => ([], .diverged)

/-! ## Queue and playback control

From src/rodio/src/lib.rs (Player) and src/gonk-player/src/lib.rs
(Player over gonk_core::Index).  The queue state is the song list plus the
optional cursor; the command sent to the audio pipeline by an operation is
recorded as a QAct.
-/

/-- Pipeline side effect of a queue operation: none, play_selected /
play_index (load), or stop. -/
inductive QAct where
  | none
  | load
  | stop
deriving DecidableEq, Repr

/-- rodio Player::next_song (lib.rs lines 87-95): saturating_add then a
bounds check. -/
def rodioNextSong (songs : List α) (cur : Option Nat) : Option Nat × QAct :=
  match cur with
  | Option.none => (Option.none, QAct.none)
  | some i =>
    if i + 1 < songs.length then (some (i + 1), QAct.load) else (some i, QAct.none)

/-- rodio Player::prev_song (lib.rs lines 78-86): saturating_sub then a
bounds check. -/
def rodioPrevSong (songs : List α) (cur : Option Nat) : Option Nat × QAct :=
  match cur with
  | Option.none => (Option.none, QAct.none)
  | some i =>
    if i - 1 < songs.length then (some (i - 1), QAct.load) else (some i, QAct.none)

/-- rodio Player::volume_up (lib.rs lines 96-106): u16 checked in debug,
wrapping in release, then clamped above at 100.  VOLUME_STEP = 5. -/
def rodioVolumeUp (volume : Nat) : Nat :=
  let v := (volume + 5) % 65536
  if v > 100 then 100 else v

/-- rodio Player::volume_down (lib.rs lines 108-116): subtracts 5 unless
already zero; u16 subtraction wraps modulo 2^16 below zero. -/
def rodioVolumeDown (volume : Nat) : Nat :=
  if volume ≠ 0 then (volume + 65536 - 5) % 65536 else volume

/-- Number of binary digits of n (0 for 0), with explicit fuel; fuel 64
covers every number below 2^64.  Used to locate the binary exponent of an
exact rational without a rational-comparison search. -/
def bitLen : Nat → Nat → Nat
  | 0, _ => 0
  | fuel + 1, n => if n = 0 then 0 else bitLen fuel (n / 2) + 1

/-- Round a rational to the nearest integer, ties to even: the IEEE 754
default rounding applied to a scaled significand. -/
def rne (q : ℚ) : ℤ :=
  let n := ⌊q⌋
  let r := q - n
  if r < 1 / 2 then n else if 1 / 2 < r then n + 1 else if n % 2 = 0 then n else n + 1

/-- Binary exponent e with 2^e ≤ x < 2^(e+1), valid for x ≥ 2^(-8) (every
positive value appearing in the volume computations is at least 1/150):
scale x by 2^8, take the integer part, count its bits. -/
def floorLog2 (x : ℚ) : ℤ :=
  (bitLen 64 (Int.toNat ⌊x * 256⌋) : ℤ) - 9

/-- Exact IEEE 754 binary32 rounding (round to nearest, ties to even) of a
rational, as the rational value of the resulting float: the significand is
scaled to 24 bits and rounded.  Valid on the normal range away from
overflow; every value in the volume computations lies in [1/150, 165] or
is 0 (nonpositive inputs, which do not occur, map to 0). -/
def roundF32 (x : ℚ) : ℚ :=
  if x ≤ 0 then 0
  else
    let s : ℤ := 23 - floorLog2 x
    if 0 ≤ s then
      (rne (x * ((2 ^ s.toNat : ℕ) : ℚ)) : ℚ) / ((2 ^ s.toNat : ℕ) : ℚ)
    else
      (rne (x / ((2 ^ (-s).toNat : ℕ) : ℚ)) : ℚ) * ((2 ^ (-s).toNat : ℕ) : ℚ)

/-- gonk-player Player::new (lib.rs line 80): the integer volume k is
stored as the f32 volume as f32 / VOLUME_REDUCTION, with
VOLUME_REDUCTION = 150.0 (lib.rs line 26).  The u8 to f32 conversion is
exact (k ≤ 255 < 2^24) and the f32 division rounds the exact quotient to
nearest even, so the stored float is roundF32 (k/150). -/
def storeVol (k : Nat) : ℚ := roundF32 ((k : ℚ) / 150)

/-- gonk-player Player::volume (lib.rs lines 270-271):
(self.volume * VOLUME_REDUCTION) as u8.  The f32 multiplication rounds to
nearest even; the as u8 cast truncates toward zero and saturates to
0..=255 (the stored volume is never negative, so truncation is floor). -/
def readVolU8 (x : ℚ) : Nat := min (Int.toNat ⌊roundF32 (x * 150)⌋) 255

/-- The i8 readback used by volume_down (lib.rs line 183):
(self.volume * VOLUME_REDUCTION) as i8 truncates toward zero and
saturates to -128..=127 (the stored volume is never negative, so
truncation is floor). -/
def readVolI8 (x : ℚ) : ℤ := max (-128) (min 127 ⌊roundF32 (x * 150)⌋)

/-- gonk-player Player::volume_up (lib.rs lines 177-180) on the stored
f32 state: ((self.volume * VOLUME_REDUCTION) as u8 + 5).clamp(0, 100)
as f32 / VOLUME_REDUCTION.  The u8 addition wraps at 256, the clamp is
min with 100 (the value is never below 0), and the store repeats the
exact-int-to-f32 division of Player::new. -/
def gonkVolumeUp (x : ℚ) : ℚ :=
  storeVol (min ((readVolU8 x + 5) % 256) 100)

/-- gonk-player Player::volume_down (lib.rs lines 181-184) on the stored
f32 state: ((self.volume * VOLUME_REDUCTION) as i8 - 5).clamp(0, 100)
as f32 / VOLUME_REDUCTION, with the subtraction on ℤ (the i8 readback is
at least -128 and at most 127, so subtracting 5 cannot wrap). -/
def gonkVolumeDown (x : ℚ) : ℚ :=
  storeVol (max 0 (min 100 (readVolI8 x - 5))).toNat

/-- rodio Player::delete_song (lib.rs lines 131-161).  Returns the new
song list, the new cursor, and the pipeline action taken. -/
def rodioDeleteSong (songs : List α) (cur : Option Nat) (selected : Nat) :
    List α × Option Nat × QAct :=
  let songs2 := songs.eraseIdx selected
  match cur with
  | Option.none => (songs2, Option.none, QAct.none)
  | some c =>
    let len := songs2.length
    if len = 0 then ([], Option.none, QAct.stop)
    else
      let c1 :=
        if c = selected ∧ selected = 0 then 0
        else if c = selected ∧ len = selected then len - 1
        else if selected < c then c - 1
        else c
      let e := len - 1
      let c2 := if selected > e then e else c1
      let act := if selected = c then QAct.load else QAct.none
      (songs2, some c2, act)

/-- gonk-player Player::delete_index (lib.rs lines 206-227).  The songs
live in a gonk_core::Index, whose source is not among the files here.
Modelled from the spec: a Queue is an ordered song list plus an optional
cursor; remove(i) drops element i and leaves the stored cursor untouched;
select sets the cursor; index() reads it. -/
def gonkDeleteIndex (songs : List α) (sel : Option Nat) (index : Nat) :
    List α × Option Nat × QAct :=
  if songs.isEmpty then (songs, sel, QAct.none)
  else
    let songs2 := songs.eraseIdx index
    match sel with
    | Option.none => (songs2, Option.none, QAct.none)
    | some playing =>
      let len := songs2.length
      if len = 0 then ([], Option.none, QAct.stop)
      else if index = playing ∧ index = 0 then (songs2, some 0, QAct.load)
      else if index = playing ∧ index = len then (songs2, some (len - 1), QAct.load)
      else if index < playing then (songs2, some (playing - 1), QAct.none)
      else (songs2, some playing, QAct.none)

/-! ## gronk-player queue, from src/gronk-player/src/queue.rs -/

/-- Queue (queue.rs): song paths, the now playing song and the cursor. -/
structure GQueue where
  songs : List String
  nowPlaying : Option String
  index : Option Nat
deriving DecidableEq, Repr

/-- Queue::next_song (queue.rs lines 58-71): advances to index + 1 when a
song exists there, otherwise falls back to the first song of the queue. -/
def GQueue.nextSong (q : GQueue) : Option String × GQueue :=
  match q.nowPlaying, q.index with
  | some _, some i =>
    match q.songs.get? (i + 1) with
    | some s => (some s, { q with index := some (i + 1) })
    | Option.none =>
      match q.songs.head? with
      | some s => (some s, { q with index := some 0 })
      | Option.none => (Option.none, q)
  | _, _ => (Option.none, q)

/-- Queue::prev_song (queue.rs lines 72-91): moves to index - 1 when the
index is nonzero, otherwise jumps to the last song of the queue. -/
def GQueue.prevSong (q : GQueue) : Option String × GQueue :=
  match q.nowPlaying, q.index with
  | some np, some i =>
    if i ≠ 0 then
      match q.songs.get? (i - 1) with
      | some s => (some s, { q with nowPlaying := some s, index := some (i - 1) })
      | Option.none => (some np, q)
    else
      match q.songs.getLast? with
      | some s => (some s, { q with nowPlaying := some s, index := some (q.songs.length - 1) })
      | Option.none => (some np, q)
  | some np, Option.none => (some np, q)
  | Option.none, _ => (Option.none, q)

/-! ## Search, from src/gonk/src/app/search.rs

The similarity is strsim::jaro_winkler, a dependency whose source is not
in the repository.  Modelled from the spec: the standard Jaro-Winkler
similarity (match window max(|a|,|b|)/2 - 1, transpositions counted in
halves, prefix bonus 0.1 per shared leading character up to 4), computed
in exact rational arithmetic in place of f64.  String::to_lowercase is
modelled on the ASCII range, where it agrees with it, over the character
list of the string.
-/

/-- ASCII lowercasing of one character. -/
def lowerChar (c : Char) : Char :=
  if 'A' ≤ c ∧ c ≤ 'Z' then Char.ofNat (c.toNat + 32) else c

/-- String::to_lowercase, on the character list. -/
def lowerStr (s : String) : List Char :=
  s.toList.map lowerChar

inductive Item where
  | song (id : Nat) (name album artist : String)
  | album (name artist : String)
  | artist (name : String)
deriving DecidableEq, Repr

/-- The field the similarity is measured against (song.name, album.name,
artist.name in update_search). -/
def Item.primaryName : Item → String
  | .song _ n _ _ => n
  | .album n _ => n
  | .artist n => n

/-- First unmatched index j of b with lo <= j <= hi and b[j] = c. -/
def jaroFindMatch (c : Char) (b : List Char) (flags : List Bool) (lo hi : Nat) : Option Nat :=
  (List.range b.length).find? (fun j =>
    decide (lo ≤ j) && decide (j ≤ hi) && !(flags.getD j true) && decide (b.get? j = some c))

/-- Greedy matching scan of Jaro: returns the matched characters of a in
order and the matched flags over b. -/
def jaroScan (a b : List Char) (w : Nat) : List Char × List Bool :=
  a.enum.foldl
    (fun acc ic =>
      match jaroFindMatch ic.2 b acc.2 (ic.1 - w) (ic.1 + w) with
      | some j => (acc.1 ++ [ic.2], acc.2.set j true)
      | Option.none => acc)
    ([], List.replicate b.length false)

/-- Jaro similarity over exact rationals. -/
def jaro (a b : List Char) : ℚ :=
  if a.isEmpty ∧ b.isEmpty then 1
  else if a.isEmpty ∨ b.isEmpty then 0
  else
    let w := max a.length b.length / 2 - 1
    let scan := jaroScan a b w
    let bm := (b.zip scan.2).filterMap (fun cf => if cf.2 then some cf.1 else Option.none)
    let m := scan.1.length
    if m = 0 then 0
    else
      let k : ℚ := ((scan.1.zip bm).countP (fun p => decide (p.1 ≠ p.2)) : ℚ)
      ((m : ℚ) / a.length + (m : ℚ) / b.length + ((m : ℚ) - k / 2) / m) / 3

/-- Jaro-Winkler similarity over exact rationals. -/
def jaroWinkler (a b : List Char) : ℚ :=
  let j := jaro a b
  let p := (((a.zip b).take 4).takeWhile (fun cc => decide (cc.1 = cc.2))).length
  j + (p : ℚ) * (1 / 10) * (1 - j)

/-- The acc computed for one cache item in update_search (lines 106-111):
query is already lowercased, the item name is lowercased here. -/
def itemScore (q : List Char) (item : Item) : ℚ :=
  jaroWinkler q (lowerStr item.primaryName)

/-- The body of the for loop of update_search (search.rs lines 106-120):
push the item while the query is empty and fewer than 40 results are
collected, and push any item whose similarity exceeds 0.75. -/
def searchStep (q : List Char) (results : List (Item × ℚ)) (item : Item) : List (Item × ℚ) :=
  let acc := itemScore q item
  let results :=
    if q.isEmpty ∧ results.length < 40 then results ++ [(item, acc)] else results
  if acc > 3 / 4 then results ++ [(item, acc)] else results

/-- Search::update_search (search.rs lines 96-124): run the loop over the
cache, then stably sort by similarity, descending, and drop the scores
(Vec::sort_by is a stable sort, and a stable sort of a total preorder is
unique, so List.insertionSort gives the same list). -/
def updateSearch (cache : List Item) (query : String) : List Item :=
  let q := lowerStr query
  (List.insertionSort (fun x y : Item × ℚ => y.2 ≤ x.2) (cache.foldl (searchStep q) [])).map
    Prod.fst

/-- The nonempty-query result as the spec words it: the entries whose
similarity exceeds 0.75, stably sorted by similarity descending. -/
def searchSpecResult (cache : List Item) (query : String) : List Item :=
  let q := lowerStr query
  List.insertionSort (fun x y : Item => itemScore q y ≤ itemScore q x)
    (cache.filter (fun item => decide (itemScore q item > 3 / 4)))

/-- Tie-break rank claimed for equal similarity: Artist before Album
before Song. -/
def Item.kindRank : Item → Nat
  | .artist _ => 0
  | .album _ _ => 1
  | .song _ _ _ _ => 2

/-- The result ordering exactly as the claim states it: similarity
descending, ties by kind (Artist before Album before Song), then
lexicographic on the primary name. -/
def claimedSearchResult (cache : List Item) (query : String) : List Item :=
  let q := lowerStr query
  List.insertionSort
    (fun x y : Item =>
      itemScore q y < itemScore q x ∨
        (itemScore q x = itemScore q y ∧
          (x.kindRank < y.kindRank ∨ (x.kindRank = y.kindRank ∧ x.primaryName ≤ y.primaryName))))
    (cache.filter (fun item => decide (itemScore q item > 3 / 4)))

/-! ## Playlist byte format

From src/gonk-database/src/playlist.rs (RawPlaylist::save and
From<&[u8]>) and the song byte layout of src/gonk-test-database/src/main.rs
(Song::new / into_bytes / From<&[u8]>, TEXT_LEN = 510, SONG_LEN = 512),
which matches the fixed-length record mandated by the spec.  Bytes are
naturals below 256.
-/

def TEXT_LEN : Nat := 510

def SONG_LEN : Nat := TEXT_LEN + 2

structure RawSong where
  text : List Nat
  number : Nat
  disc : Nat
deriving DecidableEq, Repr

/-- Song::new: the four fields NUL-terminated back to back in a zeroed
510 byte buffer (the source panics when they do not fit). -/
def RawSong.make (name album artist path : List Nat) (number disc : Nat) : RawSong :=
  let s := name ++ [0] ++ album ++ [0] ++ artist ++ [0] ++ path ++ [0]
  ⟨s ++ List.replicate (TEXT_LEN - s.length) 0, number, disc⟩

/-- Song::into_bytes: the 510 text bytes then the track and disc bytes. -/
def RawSong.intoBytes (s : RawSong) : List Nat :=
  s.text ++ [s.number % 256, s.disc % 256]

/-- From<&[u8]> for Song: text from the first 510 bytes, track and disc
from bytes 510 and 511. -/
def RawSong.fromBytes (bytes : List Nat) : RawSong :=
  ⟨bytes.take TEXT_LEN, bytes.getD (SONG_LEN - 2) 0, bytes.getD (SONG_LEN - 1) 0⟩

structure RawPlaylist where
  name : List Nat
  songs : List RawSong
deriving DecidableEq, Repr

/-- The byte image RawPlaylist::save writes (playlist.rs lines 73-78):
the name length as a little-endian u16, the name bytes, then the song
records back to back -- no separator byte is emitted. -/
def RawPlaylist.saveBytes (p : RawPlaylist) : List Nat :=
  [p.name.length % 256, p.name.length / 256 % 256] ++ p.name
    ++ (p.songs.map RawSong.intoBytes).flatten

/-- The record loop of From<&[u8]> (playlist.rs lines 94-97): read
SONG_LEN sized records while a full record remains.  The loop advances by
SONG_LEN bytes per iteration, so any fuel of at least the byte count
makes the fueled recursion equal to the source loop. -/
def parsePlaylistSongs (fuel : Nat) (bytes : List Nat) : List RawSong :=
  match fuel with
  | 0 => []
  | f + 1 =>
    if SONG_LEN ≤ bytes.length then
      RawSong.fromBytes (bytes.take SONG_LEN) :: parsePlaylistSongs f (bytes.drop SONG_LEN)
    else []

/-- From<&[u8]> for RawPlaylist (playlist.rs lines 85-104): name length
from bytes 0..2, name from 2..2+L, then records starting at L + 2 + 1
(the source comment asks: is it +3 or +2?). -/
def RawPlaylist.fromBytes (bytes : List Nat) : RawPlaylist :=
  let nameLen := bytes.getD 0 0 + 256 * bytes.getD 1 0
  ⟨(bytes.drop 2).take nameLen,
    parsePlaylistSongs bytes.length (bytes.drop (nameLen + 2 + 1))⟩

/-! ## Library scan, from src/gonk-database/src/sqlite.rs

Database::add_dirs (lines 98-144).  The file system walk and the tag read
(gonk_types::Song::from, not among the sources) are abstract parameters;
the song table with its UNIQUE path column is a list of path-keyed rows,
INSERT OR IGNORE being insert-if-path-absent.
-/

def AUDIO_EXTS : List String := ["flac", "mp3", "ogg", "wav", "m4a"]

/-- The file name: everything after the last slash. -/
def pathFileName (p : String) : List Char :=
  (p.toList.reverse.takeWhile (fun c => decide (c ≠ '/'))).reverse

/-- std::path::Path::extension: the part of the file name after the last
dot, none when there is no dot or the only dot is the leading one. -/
def pathExtension (p : String) : Option String :=
  let name := pathFileName p
  let ext := (name.reverse.takeWhile (fun c => decide (c ≠ '.'))).reverse
  if ext.length = name.length then Option.none
  else if name.length = ext.length + 1 ∧ name.headD '/' = '.' then Option.none
  else some (String.mk ext)

/-- The extension filter of add_dirs (lines 107-113). -/
def isAudioFile (p : String) : Bool :=
  match pathExtension p with
  | some e => AUDIO_EXTS.contains e
  | Option.none => false

/-- INSERT OR IGNORE INTO song ... with the UNIQUE path column. -/
def insertOrIgnore {τ : Type} (store : List (String × τ)) (e : String × τ) : List (String × τ) :=
  if store.any (fun x => x.1 = e.1) then store else store ++ [e]

/-- The worker thread body of add_dirs (lines 102-143): for each dir,
collect the tagged audio files; if none were found, store busy = false and
return from the whole closure; otherwise batch-insert and continue. -/
def addDirsWorker {τ : Type} (files : String → List String) (tag : String → τ) :
    List String → List (String × τ) → List (String × τ)
  | [], store => store
  | d :: rest, store =>
    let songs := ((files d).filter isAudioFile).map (fun p => (p, tag p))
    if songs.isEmpty then store
    else addDirsWorker files tag rest (songs.foldl insertOrIgnore store)

structure AddDirsRes (τ : Type) where
  store : List (String × τ)
  busySetAtStart : Bool
  busyAtEnd : Bool
deriving DecidableEq, Repr

/-- Database::add_dirs: busy is stored true before the worker is spawned
(line 100) and stored false on both worker exits (lines 118 and 142);
modelled sequentially, running the worker to completion. -/
def addDirs {τ : Type} (files : String → List String) (tag : String → τ)
    (dirs : List String) (store : List (String × τ)) : AddDirsRes τ :=
  ⟨addDirsWorker files tag dirs store, true, false⟩

/-- The paths column of the store. -/
def storePaths {τ : Type} (store : List (String × τ)) : List String :=
  store.map Prod.fst

/-! ## CLI entry, from src/gonk/src/main.rs (lines 106-154)

fn main returns unit, so every return path exits the process with code 0;
only the panic hook calls process::exit(1).  When the add branch succeeds
it does not return: control falls through into the interactive UI loop.
-/

inductive CliOutcome where
  | exit (msg : Option String)
  | tui (addedPaths : List String)
deriving DecidableEq, Repr

/-- The process exit code at the end of the CLI phase: 0 for every branch
that returns from main, none when the program continues into the UI. -/
def cliExitCode : CliOutcome → Option Nat
  | .exit _ => some 0
  | .tui _ => Option.none

/-- The argument match of fn main (lines 113-153).  pathExists models
Path::new(path).exists(), removeErr the Result of sqlite::remove_path,
paths the output of sqlite::get_paths. -/
def cliMain (pathExists : String → Bool) (removeErr : String → Option String)
    (paths : List String) (args : List String) : CliOutcome :=
  match args with
  | [] => .tui []
  | a :: rest =>
    if a = "add" ∧ rest ≠ [] then
      let path := String.intercalate " " rest
      if pathExists path then .tui [path] else .exit (some "Invalid path.")
    else if a = "rm" ∧ rest ≠ [] then
      match removeErr (String.intercalate " " rest) with
      | Option.none => .exit Option.none
      | some e => .exit (some e)
    else if a = "list" then .exit (some (String.intercalate "\n" paths))
    else if a = "reset" then .exit (some "Files reset!")
    else if a = "help" ∨ a = "--help" then .exit (some "Usage")
    else .exit (some "Invalid command.")

/-! ## Theorems and lemmas -/

/-! ### Ring buffer -/

theorem natModTwoCases (x n : Nat) (h1 : x < 2 * n) :
    x % n = if x < n then x else x - n := by
  split
  · exact Nat.mod_eq_of_lt (by assumption)
  · rw [Nat.mod_eq_sub_mod (by omega)]
    exact Nat.mod_eq_of_lt (by omega)

theorem Rb.queue_length (s : Rb α) : s.queue.length = s.dist := by
  simp [Rb.queue]

theorem Rb.dist_le (s : Rb α) (wf : s.Wf) : s.dist ≤ s.len - 1 := by
  obtain ⟨hr, hw⟩ := wf
  unfold Rb.dist
  split <;> omega

theorem Rb.dist_eq_zero_iff (s : Rb α) (wf : s.Wf) : s.dist = 0 ↔ s.read = s.write := by
  obtain ⟨hr, hw⟩ := wf
  unfold Rb.dist
  split <;> omega

theorem Rb.full_iff_dist (s : Rb α) (wf : s.Wf) :
    (s.write + 1) % s.len = s.read ↔ s.dist = s.len - 1 := by
  obtain ⟨hr, hw⟩ := wf
  rw [natModTwoCases _ _ (by omega)]
  unfold Rb.dist
  split <;> split <;> omega

theorem Rb.pushBack_not_full (s : Rb α) (v : α) (wf : s.Wf)
    (h : (s.write + 1) % s.len ≠ s.read) :
    ∃ s2, s.pushBack v = .pushed s2 ∧ s2.Wf ∧ s2.len = s.len ∧ s2.read = s.read ∧
      s2.queue = s.queue ++ [v] := by
  obtain ⟨hr, hw⟩ := wf
  have hlen : 0 < s.len := by omega
  have hmod : (s.write + 1) % s.len =
      if s.write + 1 < s.len then s.write + 1 else s.write + 1 - s.len :=
    natModTwoCases _ _ (by omega)
  refine ⟨⟨fun n => if n = s.write then v else s.buf n, s.len, (s.write + 1) % s.len, s.read⟩,
    ?_, ⟨hr, Nat.mod_lt _ hlen⟩, rfl, rfl, ?_⟩
  · simp only [Rb.pushBack]
    rw [if_neg h]
  · have hd : s.dist ≤ s.len - 1 := Rb.dist_le s ⟨hr, hw⟩
    have hdist : Rb.dist ⟨fun n => if n = s.write then v else s.buf n, s.len,
        (s.write + 1) % s.len, s.read⟩ = s.dist + 1 := by
      unfold Rb.dist at hd ⊢
      dsimp only
      rcases Nat.lt_or_ge (s.write + 1) s.len with h1 | h1
      · rw [Nat.mod_eq_of_lt h1] at h ⊢
        split at hd <;> split <;> omega
      · have h2 : s.write + 1 = s.len := by omega
        rw [h2, Nat.mod_self] at h ⊢
        split at hd <;> split <;> omega
    unfold Rb.queue
    rw [hdist, List.range_succ, List.map_append]
    congr 1
    · apply List.map_congr_left
      intro i hi
      rw [List.mem_range] at hi
      have hne : (s.read + i) % s.len ≠ s.write := by
        rw [natModTwoCases _ _ (by omega)]
        unfold Rb.dist at hi
        split at hi <;> split <;> omega
      show (if (s.read + i) % s.len = s.write then v else s.buf ((s.read + i) % s.len))
          = s.buf ((s.read + i) % s.len)
      rw [if_neg hne]
    · have heq : (s.read + s.dist) % s.len = s.write := by
        rw [natModTwoCases _ _ (by omega)]
        unfold Rb.dist
        split <;> split <;> omega
      show [if (s.read + s.dist) % s.len = s.write then v else s.buf ((s.read + s.dist) % s.len)]
          = [v]
      rw [heq, if_pos rfl]

theorem Rb.popFront_some (s : Rb α) (wf : s.Wf) (h : s.read ≠ s.write) :
    ∃ x s2, s.popFront = some (x, s2) ∧ s2.Wf ∧ s2.len = s.len ∧ s2.write = s.write ∧
      s.queue = x :: s2.queue ∧ s2.dist = s.dist - 1 := by
  obtain ⟨hr, hw⟩ := wf
  have hlen : 0 < s.len := by omega
  have hdpos : s.dist ≠ 0 := by
    intro h0
    exact h ((Rb.dist_eq_zero_iff s ⟨hr, hw⟩).mp h0)
  have hmod : (s.read + 1) % s.len =
      if s.read + 1 < s.len then s.read + 1 else s.read + 1 - s.len :=
    natModTwoCases _ _ (by omega)
  have hdist : Rb.dist ⟨s.buf, s.len, s.write, (s.read + 1) % s.len⟩ = s.dist - 1 := by
    unfold Rb.dist
    simp only [hmod]
    unfold Rb.dist at hdpos
    split at hdpos <;> split <;> split <;> omega
  refine ⟨s.buf s.read, ⟨s.buf, s.len, s.write, (s.read + 1) % s.len⟩, ?_,
    ⟨Nat.mod_lt _ hlen, hw⟩, rfl, rfl, ?_, hdist⟩
  · simp only [Rb.popFront]
    rw [if_neg h]
  · unfold Rb.queue
    rw [hdist]
    obtain ⟨d, hd⟩ : ∃ d, s.dist = d + 1 := ⟨s.dist - 1, by omega⟩
    rw [hd]
    simp only [Nat.add_sub_cancel]
    rw [List.range_succ_eq_map, List.map_cons, List.map_map]
    congr 1
    · show s.buf ((s.read + 0) % s.len) = s.buf s.read
      rw [Nat.add_zero, Nat.mod_eq_of_lt hr]
    · apply List.map_congr_left
      intro i hi
      show s.buf ((s.read + Nat.succ i) % s.len) = s.buf (((s.read + 1) % s.len + i) % s.len)
      have harg : s.read + Nat.succ i = s.read + 1 + i := by omega
      rw [Nat.mod_add_mod, harg]

theorem RbRun.stepOp_preserves [Inhabited α] (C : Nat) (st : RbRun α) (op : RbOp α)
    (h : RbInv C st) : RbInv C (st.stepOp op) := by
  obtain ⟨hwf, hlen, hfifo⟩ := h
  cases op with
  | push v =>
    by_cases hfull : (st.rb.write + 1) % st.rb.len = st.rb.read
    · have : st.rb.pushBack v = .assertFailed ∨ st.rb.pushBack v = .blocked st.rb := by
        rw [Rb.pushBack, if_pos hfull]
        split
        · exact Or.inl rfl
        · exact Or.inr rfl
      rcases this with h1 | h1 <;> simp [RbRun.stepOp, h1, RbInv, hwf, hlen, hfifo]
    · obtain ⟨s2, hp, hwf2, hl2, _, hq2⟩ := Rb.pushBack_not_full st.rb v hwf hfull
      simp only [RbRun.stepOp, hp]
      exact ⟨hwf2, by rw [hl2, hlen], by rw [hq2, ← List.append_assoc, hfifo]⟩
  | pop =>
    by_cases hemp : st.rb.read = st.rb.write
    · have : st.rb.popFront = none := by rw [Rb.popFront, if_pos hemp]
      simp [RbRun.stepOp, this, RbInv, hwf, hlen, hfifo]
    · obtain ⟨x, s2, hp, hwf2, hl2, _, hq2, _⟩ := Rb.popFront_some st.rb hwf hemp
      simp only [RbRun.stepOp, hp]
      refine ⟨hwf2, by rw [hl2, hlen], ?_⟩
      rw [← hfifo, hq2]
      simp

theorem Rb.runOps_inv (α : Type) [Inhabited α] (C : Nat) (ops : List (RbOp α)) :
    RbInv C (Rb.runOps α C ops) := by
  have base : RbInv C (⟨Rb.new α C, [], []⟩ : RbRun α) := by
    refine ⟨⟨by simp [Rb.new], by simp [Rb.new]⟩, rfl, ?_⟩
    have : (Rb.new α C).dist = 0 := by simp [Rb.new, Rb.dist]
    simp [Rb.queue, this]
  rw [Rb.runOps]
  generalize hst : (⟨Rb.new α C, [], []⟩ : RbRun α) = st at base
  clear hst
  induction ops generalizing st with
  | nil => simpa using base
  | cons op rest ih =>
    rw [List.foldl_cons]
    exact ih _ (RbRun.stepOp_preserves C st op base)

/-- C2: for every capacity C and finite operation sequence on Rb::new(C),
completed pushes minus completed pops stay within [0, C] (the pop outputs
followed by the residual queue are exactly the accepted pushes, FIFO with
no loss or duplication); pop_front returns None exactly when read = write;
push_back suspends exactly when (write + 1) mod (C + 1) = read, and after
a pop frees a slot the retried push completes.  Amended from the claim:
this holds for C >= 1; at C = 0 push_back fails its own assert instead of
suspending (see the counterexample). -/
theorem claim_C2_rb_fifo_bounds (α : Type) [Inhabited α] (C : Nat) (hC : 1 ≤ C)
    (ops : List (RbOp α)) :
    (Rb.runOps α C ops).outputs ++ (Rb.runOps α C ops).rb.queue = (Rb.runOps α C ops).accepted
    ∧ (Rb.runOps α C ops).accepted.length ≤ (Rb.runOps α C ops).outputs.length + C
    ∧ ((Rb.runOps α C ops).rb.popFront = none ↔
        (Rb.runOps α C ops).rb.read = (Rb.runOps α C ops).rb.write)
    ∧ (∀ v : α, (Rb.runOps α C ops).rb.pushBack v = PushRes.blocked ((Rb.runOps α C ops).rb) ↔
        ((Rb.runOps α C ops).rb.write + 1) % (C + 1) = (Rb.runOps α C ops).rb.read)
    ∧ (∀ (v x : α) (s2 : Rb α),
        (Rb.runOps α C ops).rb.pushBack v = PushRes.blocked ((Rb.runOps α C ops).rb) →
        (Rb.runOps α C ops).rb.popFront = some (x, s2) →
        ∃ s3, s2.pushBack v = PushRes.pushed s3) := by
  obtain ⟨hwf, hlen, hfifo⟩ := Rb.runOps_inv α C ops
  have hql : (Rb.runOps α C ops).rb.queue.length = (Rb.runOps α C ops).rb.dist :=
    Rb.queue_length _
  have hdle : (Rb.runOps α C ops).rb.dist ≤ (Rb.runOps α C ops).rb.len - 1 :=
    Rb.dist_le _ hwf
  have hfull : ((Rb.runOps α C ops).rb.write + 1) % ((Rb.runOps α C ops).rb.len) =
      (Rb.runOps α C ops).rb.read ↔ (Rb.runOps α C ops).rb.dist =
      (Rb.runOps α C ops).rb.len - 1 := Rb.full_iff_dist _ hwf
  refine ⟨hfifo, ?_, ?_, ?_, ?_⟩
  · have := congrArg List.length hfifo
    rw [List.length_append] at this
    omega
  · constructor
    · intro h
      by_contra hrw
      rw [Rb.popFront, if_neg hrw] at h
      exact Option.noConfusion h
    · intro hrw
      rw [Rb.popFront, if_pos hrw]
  · intro v
    rw [← hlen, hfull]
    constructor
    · intro hb
      by_contra hnf
      have hnf2 : ((Rb.runOps α C ops).rb.write + 1) % ((Rb.runOps α C ops).rb.len) ≠
          (Rb.runOps α C ops).rb.read := fun hx => hnf (hfull.mp hx)
      obtain ⟨s2, hp, _⟩ := Rb.pushBack_not_full _ v hwf hnf2
      rw [hp] at hb
      exact PushRes.noConfusion hb
    · intro hd
      have hne : (Rb.runOps α C ops).rb.read ≠ (Rb.runOps α C ops).rb.write := by
        intro hx
        have := (Rb.dist_eq_zero_iff _ hwf).mpr hx
        omega
      rw [Rb.pushBack, if_pos (hfull.mpr hd)]
      rw [if_neg hne]
  · intro v x s2 hb hpop
    have hfl : ((Rb.runOps α C ops).rb.write + 1) % ((Rb.runOps α C ops).rb.len) =
        (Rb.runOps α C ops).rb.read := by
      by_contra hnf
      obtain ⟨s3, hp, _⟩ := Rb.pushBack_not_full _ v hwf hnf
      rw [hp] at hb
      exact PushRes.noConfusion hb
    have hdC : (Rb.runOps α C ops).rb.dist = C := by
      have := hfull.mp hfl
      omega
    have hne : (Rb.runOps α C ops).rb.read ≠ (Rb.runOps α C ops).rb.write := by
      intro hx
      have := (Rb.dist_eq_zero_iff _ hwf).mpr hx
      omega
    obtain ⟨x2, s4, hp2, hwf4, hl4, _, _, hd4⟩ := Rb.popFront_some _ hwf hne
    rw [hp2] at hpop
    have hx2 : x2 = x ∧ s4 = s2 := by
      have h1 := Option.some.inj hpop
      exact ⟨congrArg Prod.fst h1, congrArg Prod.snd h1⟩
    obtain ⟨rfl, rfl⟩ := hx2
    have hnf4 : (s4.write + 1) % s4.len ≠ s4.read := by
      intro hx
      have := (Rb.full_iff_dist s4 hwf4).mp hx
      omega
    obtain ⟨s5, hp5, _⟩ := Rb.pushBack_not_full s4 v hwf4 hnf4
    exact ⟨s5, hp5⟩

/-- C2 witness: the theorem applied at capacity 1 and the operation
sequence push 5 then pop. -/
theorem claim_C2_rb_fifo_bounds_witness :
    1 ≤ 1 ∧
    ((Rb.runOps Nat 1 [RbOp.push 5, RbOp.pop]).outputs
        ++ (Rb.runOps Nat 1 [RbOp.push 5, RbOp.pop]).rb.queue
        = (Rb.runOps Nat 1 [RbOp.push 5, RbOp.pop]).accepted
      ∧ (Rb.runOps Nat 1 [RbOp.push 5, RbOp.pop]).accepted.length
        ≤ (Rb.runOps Nat 1 [RbOp.push 5, RbOp.pop]).outputs.length + 1
      ∧ ((Rb.runOps Nat 1 [RbOp.push 5, RbOp.pop]).rb.popFront = none ↔
          (Rb.runOps Nat 1 [RbOp.push 5, RbOp.pop]).rb.read
          = (Rb.runOps Nat 1 [RbOp.push 5, RbOp.pop]).rb.write)
      ∧ (∀ v : Nat, (Rb.runOps Nat 1 [RbOp.push 5, RbOp.pop]).rb.pushBack v
          = PushRes.blocked ((Rb.runOps Nat 1 [RbOp.push 5, RbOp.pop]).rb) ↔
          ((Rb.runOps Nat 1 [RbOp.push 5, RbOp.pop]).rb.write + 1) % (1 + 1)
          = (Rb.runOps Nat 1 [RbOp.push 5, RbOp.pop]).rb.read)
      ∧ (∀ (v x : Nat) (s2 : Rb Nat),
          (Rb.runOps Nat 1 [RbOp.push 5, RbOp.pop]).rb.pushBack v
            = PushRes.blocked ((Rb.runOps Nat 1 [RbOp.push 5, RbOp.pop]).rb) →
          (Rb.runOps Nat 1 [RbOp.push 5, RbOp.pop]).rb.popFront = some (x, s2) →
          ∃ s3, s2.pushBack v = PushRes.pushed s3)) :=
  ⟨Nat.le_refl 1, claim_C2_rb_fifo_bounds Nat 1 (Nat.le_refl 1) [RbOp.push 5, RbOp.pop]⟩

/-- C2 counterexample: at capacity 0 the buffer is immediately full in the
claimed sense ((write + 1) mod (C + 1) = read), yet push_back does not
suspend: it fails its assert (read != write panics), because read = write
whenever C = 0. -/
theorem claim_C2_cex_capacity_zero :
    ((Rb.new Nat 0).write + 1) % (0 + 1) = (Rb.new Nat 0).read
    ∧ (Rb.new Nat 0).pushBack 7 = PushRes.assertFailed
    ∧ ∀ s : Rb Nat, (PushRes.assertFailed : PushRes Nat) ≠ PushRes.blocked s :=
  ⟨rfl, rfl, fun _ h => PushRes.noConfusion h⟩

/-! ### Sample rate converter -/

theorem srcGcd_self (r : Nat) : srcGcd r r = r := Nat.gcd_self r

theorem Src.collect_pass (inp : List ℚ) :
    ∀ (fuel : Nat) (s : Src), s.fromR = s.toR → s.input = inp → inp.length < fuel →
      Src.collect fuel s = (inp, SrcEnd.finished) := by
  induction inp with
  | nil =>
    intro fuel s hft hin hf
    match fuel, hf with
    | f + 1, _ =>
      rw [Src.collect]
      have : s.next = .out none s := by
        rw [Src.next, if_pos hft, hin]
      rw [this]
  | cons a rest ih =>
    intro fuel s hft hin hf
    match fuel, hf with
    | f + 1, hf =>
      rw [Src.collect]
      have : s.next = .out (some a) { s with input := rest } := by
        rw [Src.next, if_pos hft, hin]
      rw [this]
      have hrec := ih f { s with input := rest } hft rfl (by simp at hf; omega)
      dsimp only
      rw [hrec]

/-- C3, amended: when the two rates are equal the converter is an exact
pass-through: Src.mkNew succeeds without reading ahead, exhaustive
iteration of next yields the input bit-identically and then terminates,
and the number of output samples is the channels-adjusted
floor(N * to / from) = 2 * ((2N) / 2 * to / from) = 2N.  (For unequal
rates the claimed count formula fails on the code: iteration can panic
during the final drain; see the counterexample.) -/
theorem claim_C3_src_pass_through (r : Nat) (hr : 1 ≤ r) (input : List ℚ) :
    ∃ s, Src.mkNew input r r = some s
      ∧ Src.collect (input.length + 1) s = (input, SrcEnd.finished)
      ∧ (input.length % 2 = 0 →
          (Src.collect (input.length + 1) s).1.length = 2 * (input.length / 2 * r / r)) := by
  have hmk : Src.mkNew input r r
      = some ⟨input, r / srcGcd r r, r / srcGcd r r, [], 0, [], 0, none⟩ := by
    rw [Src.mkNew, if_neg (by omega), if_pos rfl]
  refine ⟨⟨input, r / srcGcd r r, r / srcGcd r r, [], 0, [], 0, none⟩, hmk, ?_, ?_⟩
  · exact Src.collect_pass input (input.length + 1) _ rfl rfl (by omega)
  · intro he
    rw [Src.collect_pass input (input.length + 1) _ rfl rfl (by omega)]
    show input.length = 2 * (input.length / 2 * r / r)
    rw [Nat.mul_div_cancel _ (by omega : 0 < r)]
    omega

/-- C3 witness: the theorem applied at rate 2 over 2 and the two-sample
input [5, 7]. -/
theorem claim_C3_src_pass_through_witness :
    1 ≤ 2 ∧
    (∃ s, Src.mkNew [(5 : ℚ), 7] 2 2 = some s
      ∧ Src.collect ([(5 : ℚ), 7].length + 1) s = ([(5 : ℚ), 7], SrcEnd.finished)
      ∧ ([(5 : ℚ), 7].length % 2 = 0 →
          (Src.collect ([(5 : ℚ), 7].length + 1) s).1.length
            = 2 * ([(5 : ℚ), 7].length / 2 * 2 / 2))) :=
  ⟨by omega, claim_C3_src_pass_through 2 (by omega) [5, 7]⟩

/-- C3 counterexample: with from = 1, to = 2 and the stereo input
[1, 2, 3, 4, 5, 6] (N = 3 frames, even sample count, at least 4 samples),
the claimed output would be floor(N * to / from) = 6 frames, that is 12
samples; the code instead yields 10 samples and then panics indexing the
drained current_frame. -/
theorem claim_C3_cex_count_formula :
    (Src.mkNew [1, 2, 3, 4, 5, 6] 1 2).map
        (fun s => ((Src.collect 40 s).1.length, (Src.collect 40 s).2))
      = some (10, SrcEnd.panicked)
    ∧ (10 : Nat) ≠ 2 * (6 / 2 * 2 / 1) := by
  constructor
  · rfl
  · decide

/-- C10: with from = 1, to = 2 and the four-sample stereo input
[1, 2, 3, 4] (even length, at least 4 samples, both rates at least 1),
SampleRateConverter::new succeeds, but the seventh call to next panics:
after the drain removes the first element of the final current_frame,
current_frame[0] indexes an empty Vec.  The iteration yields 6 samples,
never reaching the None that the claim requires. -/
theorem claim_C10_next_panics :
    (Src.mkNew [1, 2, 3, 4] 1 2).map
        (fun s => ((Src.collect 40 s).1.length, (Src.collect 40 s).2))
      = some (6, SrcEnd.panicked) := by
  rfl

/-! ### Queue delete, next and prev, volume -/

/-- C4, amended: for a queue with a set cursor c and a valid index i,
gonk-player Player::delete_index follows the claimed case analysis
exactly; rodio Player::delete_song also follows it, except that when
i > c and i is the last index the cursor is additionally clamped to
new_len - 1 instead of staying unchanged (see the counterexample). -/
theorem claim_C4_delete_case_analysis (songs : List Nat) (c i : Nat)
    (hc : c < songs.length) (hi : i < songs.length) :
    ((songs.length - 1 = 0) →
      gonkDeleteIndex songs (some c) i = ([], Option.none, QAct.stop))
    ∧ (0 < songs.length - 1 → i = c → i = 0 →
      gonkDeleteIndex songs (some c) i = (songs.eraseIdx i, some 0, QAct.load))
    ∧ (0 < songs.length - 1 → i = c → i = songs.length - 1 →
      gonkDeleteIndex songs (some c) i
        = (songs.eraseIdx i, some (songs.length - 1 - 1), QAct.load))
    ∧ (i < c →
      gonkDeleteIndex songs (some c) i = (songs.eraseIdx i, some (c - 1), QAct.none))
    ∧ (c < i →
      gonkDeleteIndex songs (some c) i = (songs.eraseIdx i, some c, QAct.none))
    ∧ ((songs.length - 1 = 0) →
      rodioDeleteSong songs (some c) i = ([], Option.none, QAct.stop))
    ∧ (0 < songs.length - 1 → i = c → i = 0 →
      rodioDeleteSong songs (some c) i = (songs.eraseIdx i, some 0, QAct.load))
    ∧ (0 < songs.length - 1 → i = c → i = songs.length - 1 →
      rodioDeleteSong songs (some c) i
        = (songs.eraseIdx i, some (songs.length - 1 - 1), QAct.load))
    ∧ (i < c →
      rodioDeleteSong songs (some c) i = (songs.eraseIdx i, some (c - 1), QAct.none))
    ∧ (c < i → i < songs.length - 1 →
      rodioDeleteSong songs (some c) i = (songs.eraseIdx i, some c, QAct.none))
    ∧ (c < i → i = songs.length - 1 →
      rodioDeleteSong songs (some c) i
        = (songs.eraseIdx i, some (songs.length - 1 - 1), QAct.none)) := by
  have hbne : ¬(songs.isEmpty = true) := by
    cases songs with
    | nil => simp at hi
    | cons a l => simp
  have hlen : (songs.eraseIdx i).length = songs.length - 1 := by
    rw [List.length_eraseIdx, if_pos hi]
  refine ⟨?_, ?_, ?_, ?_, ?_, ?_, ?_, ?_, ?_, ?_, ?_⟩ <;> intros
  all_goals
    first
      | (unfold gonkDeleteIndex
         rw [if_neg hbne]
         dsimp only
         rw [hlen]
         split_ifs <;> first | rfl | omega)
      | (unfold rodioDeleteSong
         dsimp only
         rw [hlen]
         split_ifs <;> first | rfl | omega)

/-- C4 witness: the theorem applied to the queue [7, 8, 9] with cursor 1,
deleting index 2. -/
theorem claim_C4_delete_case_analysis_witness :
    (1 : Nat) < ([7, 8, 9] : List Nat).length ∧ (2 : Nat) < ([7, 8, 9] : List Nat).length ∧
    (1 < 2 →
      gonkDeleteIndex [7, 8, 9] (some 1) 2
        = (([7, 8, 9] : List Nat).eraseIdx 2, some 1, QAct.none)) ∧
    (1 < 2 → 2 = ([7, 8, 9] : List Nat).length - 1 →
      rodioDeleteSong [7, 8, 9] (some 1) 2
        = (([7, 8, 9] : List Nat).eraseIdx 2, some (([7, 8, 9] : List Nat).length - 1 - 1),
           QAct.none)) :=
  ⟨by decide, by decide,
    fun h1 => ((claim_C4_delete_case_analysis [7, 8, 9] 1 2 (by decide)
      (by decide)).2.2.2.2.1 h1),
    fun h1 h2 => ((claim_C4_delete_case_analysis [7, 8, 9] 1 2 (by decide)
      (by decide)).2.2.2.2.2.2.2.2.2.2 h1 h2)⟩

/-- C4 counterexample: queue [10, 20, 30] with the cursor on index 0;
deleting index 2 (which is greater than the cursor) must, per the claim,
change nothing, but rodio Player::delete_song moves the cursor to 1. -/
theorem claim_C4_cex_delete_clamps_cursor :
    rodioDeleteSong [10, 20, 30] (some 0) 2 = ([10, 20], some 1, QAct.none)
    ∧ (1 : Nat) ≠ 0 := by
  constructor
  · rfl
  · decide

/-- C5, amended: rodio Player::next_song and prev_song move the cursor by
one with saturation at both ends (next at the last index and prev at
index 0 leave the cursor in place), but gronk-player Queue::next_song and
prev_song wrap around instead: next at the last index returns to index 0
and prev at index 0 jumps to the last index (see the counterexample). -/
theorem claim_C5_next_prev_saturation (songs : List Nat) (i : Nat) (hne : songs ≠ []) :
    (i = songs.length - 1 → rodioNextSong songs (some i) = (some i, QAct.none))
    ∧ (i + 1 < songs.length → rodioNextSong songs (some i) = (some (i + 1), QAct.load))
    ∧ rodioPrevSong songs (some 0) = (some 0, QAct.load)
    ∧ (0 < i → i < songs.length → rodioPrevSong songs (some i) = (some (i - 1), QAct.load))
    ∧ (∀ paths np, paths ≠ [] →
        ((GQueue.mk paths (some np) (some (paths.length - 1))).nextSong).2.index = some 0)
    ∧ (∀ paths np, paths ≠ [] →
        ((GQueue.mk paths (some np) (some 0)).prevSong).2.index = some (paths.length - 1)) := by
  have hpos : 0 < songs.length := List.length_pos.mpr hne
  refine ⟨?_, ?_, ?_, ?_, ?_, ?_⟩
  · intro hlast
    unfold rodioNextSong
    dsimp only
    rw [if_neg (by omega)]
  · intro hlt
    unfold rodioNextSong
    dsimp only
    rw [if_pos hlt]
  · unfold rodioPrevSong
    dsimp only
    rw [if_pos (by omega)]
  · intro h0 hlt
    unfold rodioPrevSong
    dsimp only
    rw [if_pos (by omega)]
  · intro paths np hp
    obtain ⟨a, l, rfl⟩ := List.exists_cons_of_ne_nil hp
    unfold GQueue.nextSong
    dsimp only
    have hget : (a :: l).get? ((a :: l).length - 1 + 1) = none := by
      rw [List.get?_eq_none]
      simp
    rw [hget]
    rfl
  · intro paths np hp
    obtain ⟨a, l, rfl⟩ := List.exists_cons_of_ne_nil hp
    unfold GQueue.prevSong
    dsimp only
    rw [if_neg (by omega)]
    rcases hl : (a :: l).getLast? with _ | s
    · rw [List.getLast?_eq_none_iff] at hl
      exact absurd hl (by simp)
    · rfl

/-- C5 witness: the theorem applied to the two-song queue [3, 4] at
cursor 1 (the last index). -/
theorem claim_C5_next_prev_saturation_witness :
    ([3, 4] : List Nat) ≠ [] ∧
    (1 = ([3, 4] : List Nat).length - 1 →
      rodioNextSong [3, 4] (some 1) = (some 1, QAct.none)) ∧
    rodioPrevSong ([3, 4] : List Nat) (some 0) = (some 0, QAct.load) :=
  ⟨by decide,
    fun h => (claim_C5_next_prev_saturation [3, 4] 1 (by decide)).1 h,
    (claim_C5_next_prev_saturation [3, 4] 1 (by decide)).2.2.1⟩

/-- C5 counterexample: a two-song gronk-player queue playing the song at
the last index 1; next_song wraps the cursor to 0 instead of saturating
at 1 as the claim requires. -/
theorem claim_C5_cex_gronk_wraps :
    ((GQueue.mk ["a", "b"] (some "b") (some 1)).nextSong).2.index = some 0
    ∧ some (0 : Nat) ≠ some (1 : Nat) := by
  constructor
  · rfl
  · decide

set_option maxRecDepth 100000 in
set_option maxHeartbeats 2000000 in
/-- C6 (corrected): rodio steps the integer volume by exactly 5 with
saturating clamps (up at 100 stays 100, down at 0 stays 0, the step is
exactly 5 within the scale).  gonk-player stores the volume as the f32
value k/150 and every step starts from the truncating u8 / i8 cast of
stored * 150; that readback equals the written integer k for every
k ≤ 100 except k ∈ {49, 63, 89, 98}, where binary32 rounding makes it
k - 1.  The endpoint clamps still hold (up from stored 100 reads 100,
down from stored 0 reads 0), and each step adds or subtracts exactly 5 to
the readback before restoring, so a step that lands on 49, 63, 89 or 98
is observed one lower. -/
theorem claim_C6_volume_step_clamp :
    rodioVolumeUp 100 = 100 ∧ rodioVolumeDown 0 = 0
    ∧ (∀ v, v ≤ 95 → rodioVolumeUp v = v + 5)
    ∧ (∀ v, 5 ≤ v → v ≤ 100 → rodioVolumeDown v = v - 5)
    ∧ readVolU8 (gonkVolumeUp (storeVol 100)) = 100
    ∧ readVolU8 (gonkVolumeDown (storeVol 0)) = 0
    ∧ (∀ k, k < 101 → (readVolU8 (storeVol k) = k ↔ k ∉ ([49, 63, 89, 98] : List Nat)))
    ∧ (∀ k, k < 101 →
        readVolU8 (gonkVolumeUp (storeVol k))
          = readVolU8 (storeVol (min (readVolU8 (storeVol k) + 5) 100)))
    ∧ (∀ k, k < 101 →
        readVolU8 (gonkVolumeDown (storeVol k))
          = readVolU8 (storeVol (readVolU8 (storeVol k) - 5))) := by
  refine ⟨by decide, by decide, ?_, ?_, ?_⟩
  · intro v hv
    unfold rodioVolumeUp
    have h1 : (v + 5) % 65536 = v + 5 := Nat.mod_eq_of_lt (by omega)
    simp only [h1]
    rw [if_neg (by omega)]
  · intro v h5 h100
    unfold rodioVolumeDown
    rw [if_pos (by omega)]
    omega
  · with_unfolding_all decide

/-- C6 witness: volume up at 90 gives 95 and volume down at 10 gives 5 in
the rodio player, and in gonk-player a step up from stored volume 44
reads back as the readback of the restored min (44 + 5) 100. -/
theorem claim_C6_volume_step_clamp_witness :
    rodioVolumeUp 90 = 95 ∧ rodioVolumeDown 10 = 5
    ∧ readVolU8 (gonkVolumeUp (storeVol 44))
        = readVolU8 (storeVol (min (readVolU8 (storeVol 44) + 5) 100)) :=
  ⟨claim_C6_volume_step_clamp.2.2.1 90 (by omega),
    claim_C6_volume_step_clamp.2.2.2.1 10 (by omega) (by omega),
    claim_C6_volume_step_clamp.2.2.2.2.2.2.2.1 44 (by omega)⟩

set_option maxRecDepth 100000 in
/-- C6 counterexample: at stored volume 49 the f32 product 49/150 * 150
truncates to 48, so volume_up stores 53 (not the claimed 54) and
volume_down stores 43 (not the claimed 44). -/
theorem claim_C6_cex_float_truncation :
    readVolU8 (storeVol 49) = 48
    ∧ readVolU8 (gonkVolumeUp (storeVol 49)) = 53
    ∧ readVolU8 (gonkVolumeDown (storeVol 49)) = 43
    ∧ (53 : Nat) ≠ min (49 + 5) 100
    ∧ (43 : Nat) ≠ 49 - 5 := by
  with_unfolding_all decide

/-! ### Search -/

theorem searchFold_nonempty (q : List Char) (hq : q.isEmpty = false) (l : List Item) :
    ∀ acc : List (Item × ℚ),
      l.foldl (searchStep q) acc
        = acc ++ (l.filter (fun it => decide (itemScore q it > 3 / 4))).map
            (fun it => (it, itemScore q it)) := by
  induction l with
  | nil =>
    intro acc
    simp
  | cons it t ih =>
    intro acc
    have hstep : searchStep q acc it =
        if itemScore q it > 3 / 4 then acc ++ [(it, itemScore q it)] else acc := by
      simp [searchStep, hq]
    rw [List.foldl_cons, hstep, List.filter_cons]
    by_cases hgt : itemScore q it > 3 / 4
    · rw [if_pos hgt, if_pos (decide_eq_true hgt), ih]
      simp
    · rw [if_neg hgt, if_neg (by simpa using hgt)]
      exact ih acc

theorem orderedInsert_score_pair (f : Item → ℚ) (a : Item) (l : List Item) :
    List.orderedInsert (fun x y : Item × ℚ => y.2 ≤ x.2) (a, f a)
        (l.map (fun it => (it, f it)))
      = (List.orderedInsert (fun x y : Item => f y ≤ f x) a l).map (fun it => (it, f it)) := by
  induction l with
  | nil => simp [List.orderedInsert]
  | cons b t ih =>
    simp only [List.map_cons, List.orderedInsert]
    by_cases h : f b ≤ f a
    · rw [if_pos h, if_pos h]
      simp
    · rw [if_neg h, if_neg h, ih]
      simp

theorem insertionSort_score_pair (f : Item → ℚ) (l : List Item) :
    List.insertionSort (fun x y : Item × ℚ => y.2 ≤ x.2) (l.map (fun it => (it, f it)))
      = (List.insertionSort (fun x y : Item => f y ≤ f x) l).map (fun it => (it, f it)) := by
  induction l with
  | nil => simp [List.insertionSort]
  | cons a t ih =>
    simp only [List.map_cons, List.insertionSort, ih, orderedInsert_score_pair]

theorem insertionSort_of_rel_total {β : Type} (R : β → β → Prop) [DecidableRel R] :
    ∀ l : List β, (∀ a ∈ l, ∀ b ∈ l, R a b) → List.insertionSort R l = l := by
  intro l
  induction l with
  | nil => intro _; rfl
  | cons a t ih =>
    intro h
    rw [List.insertionSort, ih (fun x hx y hy => h x (by simp [hx]) y (by simp [hy]))]
    cases t with
    | nil => rfl
    | cons b t2 =>
      rw [List.orderedInsert, if_pos (h a (by simp) b (by simp))]

theorem searchFold_empty (q : List Char) (hq : q.isEmpty = true) (l : List Item)
    (hsc : ∀ it ∈ l, ¬(itemScore q it > 3 / 4)) :
    ∀ acc : List (Item × ℚ),
      l.foldl (searchStep q) acc
        = acc ++ (l.take (40 - acc.length)).map (fun it => (it, itemScore q it)) := by
  induction l with
  | nil =>
    intro acc
    simp
  | cons it t ih =>
    intro acc
    have hit : ¬(itemScore q it > 3 / 4) := hsc it (by simp)
    have hsct : ∀ x ∈ t, ¬(itemScore q x > 3 / 4) := fun x hx => hsc x (by simp [hx])
    have hstep : searchStep q acc it =
        if acc.length < 40 then acc ++ [(it, itemScore q it)] else acc := by
      simp [searchStep, hq, hit]
    rw [List.foldl_cons, hstep]
    by_cases hlt : acc.length < 40
    · rw [if_pos hlt, ih hsct (acc ++ [(it, itemScore q it)])]
      have h1 : (acc ++ [(it, itemScore q it)]).length = acc.length + 1 := by
        simp
      rw [h1]
      have h2 : 40 - acc.length = (40 - (acc.length + 1)) + 1 := by omega
      rw [h2, List.take_succ_cons]
      simp
    · rw [if_neg hlt, ih hsct acc]
      have h0 : 40 - acc.length = 0 := by omega
      rw [h0]
      simp

theorem itemScore_empty_query (qe : List Char) (hqe : qe = []) (it : Item)
    (h : lowerStr it.primaryName ≠ []) : itemScore qe it = 0 := by
  obtain ⟨c, cs, hcons⟩ := List.exists_cons_of_ne_nil h
  have hj : jaro [] (lowerStr it.primaryName) = 0 := by
    rw [hcons]
    unfold jaro
    rw [if_neg (by simp), if_pos (by simp)]
  unfold itemScore jaroWinkler
  rw [hqe, hj]
  simp

/-- C7, amended: for a nonempty query, update_search returns exactly the
cache entries whose case-insensitive Jaro-Winkler similarity to the query
exceeds 0.75, stably sorted by similarity descending -- the ties keep the
cache scan order (songs, then albums, then artists), with no tie-break by
entry kind or name (see the counterexample); for an empty query it
returns the first forty cache entries in cache order, provided every
entry has a nonempty primary name. -/
theorem claim_C7_update_search (cache : List Item) (query : String) :
    ((lowerStr query).isEmpty = false →
      updateSearch cache query = searchSpecResult cache query)
    ∧ ((lowerStr query).isEmpty = true →
      (∀ it ∈ cache, lowerStr it.primaryName ≠ []) →
      updateSearch cache query = cache.take 40) := by
  constructor
  · intro hq
    simp only [updateSearch, searchSpecResult]
    rw [searchFold_nonempty (lowerStr query) hq cache [], List.nil_append,
      insertionSort_score_pair (itemScore (lowerStr query)), List.map_map]
    have hid : (Prod.fst ∘ fun it : Item => (it, itemScore (lowerStr query) it)) = id := rfl
    rw [hid, List.map_id]
  · intro hq hnames
    have hqe : lowerStr query = [] := List.isEmpty_iff.mp hq
    have hsc : ∀ it ∈ cache, ¬(itemScore (lowerStr query) it > 3 / 4) := by
      intro it hit
      rw [itemScore_empty_query (lowerStr query) hqe it (hnames it hit)]
      norm_num
    simp only [updateSearch]
    rw [searchFold_empty (lowerStr query) hq cache hsc [], List.nil_append]
    have htake : (40 : Nat) - ([] : List (Item × ℚ)).length = 40 := by simp
    rw [htake]
    rw [insertionSort_of_rel_total _ _ ?_]
    · rw [List.map_map]
      have hid : (Prod.fst ∘ fun it : Item => (it, itemScore (lowerStr query) it)) = id := rfl
      rw [hid, List.map_id]
    · intro a ha b hb
      rw [List.mem_map] at ha hb
      obtain ⟨ia, hia, rfl⟩ := ha
      obtain ⟨ib, hib, rfl⟩ := hb
      have h0a : itemScore (lowerStr query) ia = 0 :=
        itemScore_empty_query (lowerStr query) hqe ia
          (hnames ia (List.take_subset 40 cache hia))
      have h0b : itemScore (lowerStr query) ib = 0 :=
        itemScore_empty_query (lowerStr query) hqe ib
          (hnames ib (List.take_subset 40 cache hib))
      show itemScore (lowerStr query) ib ≤ itemScore (lowerStr query) ia
      rw [h0a, h0b]

/-- C7 witness: the theorem applied to a two-entry cache and the
queries "b" (nonempty) and "" (empty). -/
theorem claim_C7_update_search_witness :
    (lowerStr "b").isEmpty = false
    ∧ updateSearch [Item.song 0 "b" "" "", Item.artist "b"] "b"
        = searchSpecResult [Item.song 0 "b" "" "", Item.artist "b"] "b"
    ∧ (lowerStr "").isEmpty = true
    ∧ updateSearch [Item.song 0 "b" "" "", Item.artist "b"] ""
        = ([Item.song 0 "b" "" "", Item.artist "b"] : List Item).take 40 :=
  ⟨by decide,
    (claim_C7_update_search [Item.song 0 "b" "" "", Item.artist "b"] "b").1 (by decide),
    by decide,
    (claim_C7_update_search [Item.song 0 "b" "" "", Item.artist "b"] "").2 (by decide)
      (by decide)⟩

/-- C7 counterexample: a song named b and an artist named b both match
the query b with similarity 1; the claim orders the artist first
(Artist > Album > Song on ties), but update_search keeps the cache order
with the song first. -/
theorem claim_C7_cex_tiebreak :
    updateSearch [Item.song 0 "b" "" "", Item.artist "b"] "b"
        = [Item.song 0 "b" "" "", Item.artist "b"]
    ∧ claimedSearchResult [Item.song 0 "b" "" "", Item.artist "b"] "b"
        = [Item.artist "b", Item.song 0 "b" "" ""]
    ∧ updateSearch [Item.song 0 "b" "" "", Item.artist "b"] "b"
        ≠ claimedSearchResult [Item.song 0 "b" "" "", Item.artist "b"] "b" := by
  refine ⟨by with_unfolding_all decide, by with_unfolding_all decide,
    by with_unfolding_all decide⟩

/-! ### Playlist round trip -/

set_option maxRecDepth 8000 in
/-- C1: the round trip is broken on the code.  RawPlaylist::save writes
2 + L + 512k bytes with no separator after the L-byte name (the byte at
offset 2 + L is the first byte of the first song, here the letter t),
while the deserializer skips offset 2 + L as if a separator were there;
for the one-song playlist named a the parse loop finds only 511 bytes
after its misaligned start and returns no songs at all. -/
theorem claim_C1_playlist_roundtrip_bug :
    (RawPlaylist.mk [97] [RawSong.make [116] [98] [114] [112] 1 1]).songs.length = 1
    ∧ RawPlaylist.fromBytes
        (RawPlaylist.saveBytes (RawPlaylist.mk [97] [RawSong.make [116] [98] [114] [112] 1 1]))
        = RawPlaylist.mk [97] []
    ∧ (RawPlaylist.saveBytes
        (RawPlaylist.mk [97] [RawSong.make [116] [98] [114] [112] 1 1])).getD (2 + 1) 0 ≠ 0 := by
  refine ⟨rfl, by decide, by decide⟩

/-! ### Library scan -/

theorem mem_storePaths_insertOrIgnore {τ : Type} (st : List (String × τ)) (e : String × τ)
    (p : String) :
    p ∈ storePaths (insertOrIgnore st e) ↔ p ∈ storePaths st ∨ p = e.1 := by
  unfold insertOrIgnore
  by_cases h : st.any (fun x => decide (x.1 = e.1)) = true
  · rw [if_pos h]
    constructor
    · exact Or.inl
    · rintro (hp | rfl)
      · exact hp
      · rw [List.any_eq_true] at h
        obtain ⟨x, hx, hxe⟩ := h
        exact List.mem_map.mpr ⟨x, hx, of_decide_eq_true hxe⟩
  · rw [if_neg h]
    unfold storePaths
    rw [List.map_append]
    simp

theorem nodup_storePaths_insertOrIgnore {τ : Type} (st : List (String × τ)) (e : String × τ)
    (h : (storePaths st).Nodup) : (storePaths (insertOrIgnore st e)).Nodup := by
  unfold insertOrIgnore
  by_cases hc : st.any (fun x => decide (x.1 = e.1)) = true
  · rw [if_pos hc]
    exact h
  · rw [if_neg hc]
    unfold storePaths
    rw [List.map_append, List.nodup_append]
    refine ⟨h, by simp, ?_⟩
    intro a ha hb
    simp only [List.map_cons, List.map_nil, List.mem_singleton] at hb
    subst hb
    simp only [List.any_eq_true, decide_eq_true_eq, not_exists, not_and] at hc
    obtain ⟨x, hx, hxe⟩ := List.mem_map.mp ha
    exact hc x hx hxe

theorem foldl_insertOrIgnore_mem {τ : Type} (songs : List (String × τ)) :
    ∀ (st : List (String × τ)) (p : String),
      p ∈ storePaths (songs.foldl insertOrIgnore st)
        ↔ p ∈ storePaths st ∨ p ∈ songs.map Prod.fst := by
  induction songs with
  | nil =>
    intro st p
    simp
  | cons e t ih =>
    intro st p
    rw [List.foldl_cons, ih, mem_storePaths_insertOrIgnore]
    simp [List.mem_cons]
    tauto

theorem foldl_insertOrIgnore_nodup {τ : Type} (songs : List (String × τ)) :
    ∀ st : List (String × τ), (storePaths st).Nodup
      → (storePaths (songs.foldl insertOrIgnore st)).Nodup := by
  induction songs with
  | nil =>
    intro st h
    exact h
  | cons e t ih =>
    intro st h
    rw [List.foldl_cons]
    exact ih _ (nodup_storePaths_insertOrIgnore st e h)

theorem foldl_insertOrIgnore_id {τ : Type} (songs : List (String × τ)) :
    ∀ st : List (String × τ), (∀ e ∈ songs, e.1 ∈ storePaths st)
      → songs.foldl insertOrIgnore st = st := by
  induction songs with
  | nil =>
    intro st _
    rfl
  | cons e t ih =>
    intro st h
    rw [List.foldl_cons]
    have he : insertOrIgnore st e = st := by
      unfold insertOrIgnore
      rw [if_pos]
      rw [List.any_eq_true]
      obtain ⟨x, hx, hxe⟩ := List.mem_map.mp (h e (by simp))
      exact ⟨x, hx, decide_eq_true hxe⟩
    rw [he]
    exact ih st (fun x hx => h x (by simp [hx]))

theorem addDirsWorker_nonempty {τ : Type} (files : String → List String) (tag : String → τ)
    (d : String) (hd : (files d).filter isAudioFile ≠ []) :
    ¬((((files d).filter isAudioFile).map (fun p => (p, tag p))).isEmpty = true) := by
  rw [List.isEmpty_iff]
  simp [hd]

theorem addDirsWorker_mem {τ : Type} (files : String → List String) (tag : String → τ)
    (dirs : List String) (h : ∀ d ∈ dirs, (files d).filter isAudioFile ≠ []) :
    ∀ (st : List (String × τ)) (p : String),
      p ∈ storePaths (addDirsWorker files tag dirs st)
        ↔ p ∈ storePaths st ∨ ∃ d ∈ dirs, p ∈ (files d).filter isAudioFile := by
  induction dirs with
  | nil =>
    intro st p
    simp [addDirsWorker]
  | cons d rest ih =>
    intro st p
    have hrest : ∀ x ∈ rest, (files x).filter isAudioFile ≠ [] :=
      fun x hx => h x (by simp [hx])
    simp only [addDirsWorker]
    rw [if_neg (addDirsWorker_nonempty files tag d (h d (by simp)))]
    rw [ih hrest, foldl_insertOrIgnore_mem]
    have hfst : (((files d).filter isAudioFile).map (fun p => (p, tag p))).map Prod.fst
        = (files d).filter isAudioFile := by
      rw [List.map_map]
      have : (Prod.fst ∘ fun p : String => (p, tag p)) = id := rfl
      rw [this, List.map_id]
    rw [hfst]
    simp only [List.mem_cons]
    constructor
    · rintro ((hst | hf) | ⟨x, hx, hp⟩)
      · exact Or.inl hst
      · exact Or.inr ⟨d, Or.inl rfl, hf⟩
      · exact Or.inr ⟨x, Or.inr hx, hp⟩
    · rintro (hst | ⟨x, hx | hx, hp⟩)
      · exact Or.inl (Or.inl hst)
      · subst hx
        exact Or.inl (Or.inr hp)
      · exact Or.inr ⟨x, hx, hp⟩

theorem addDirsWorker_nodup {τ : Type} (files : String → List String) (tag : String → τ)
    (dirs : List String) :
    ∀ st : List (String × τ), (storePaths st).Nodup
      → (storePaths (addDirsWorker files tag dirs st)).Nodup := by
  induction dirs with
  | nil =>
    intro st h
    simpa [addDirsWorker] using h
  | cons d rest ih =>
    intro st h
    simp only [addDirsWorker]
    by_cases hc : (((files d).filter isAudioFile).map (fun p => (p, tag p))).isEmpty = true
    · rw [if_pos hc]
      exact h
    · rw [if_neg hc]
      exact ih _ (foldl_insertOrIgnore_nodup _ st h)

theorem addDirsWorker_id {τ : Type} (files : String → List String) (tag : String → τ)
    (dirs : List String) (h : ∀ d ∈ dirs, (files d).filter isAudioFile ≠ []) :
    ∀ st : List (String × τ),
      (∀ d ∈ dirs, ∀ p ∈ (files d).filter isAudioFile, p ∈ storePaths st)
      → addDirsWorker files tag dirs st = st := by
  induction dirs with
  | nil =>
    intro st _
    rfl
  | cons d rest ih =>
    intro st hsub
    simp only [addDirsWorker]
    rw [if_neg (addDirsWorker_nonempty files tag d (h d (by simp)))]
    have hfold : (((files d).filter isAudioFile).map (fun p => (p, tag p))).foldl
        insertOrIgnore st = st := by
      apply foldl_insertOrIgnore_id
      intro e he
      obtain ⟨x, hx, rfl⟩ := List.mem_map.mp he
      exact hsub d (by simp) x hx
    rw [hfold]
    exact ih (fun x hx => h x (by simp [hx])) st
      (fun x hx p hp => hsub x (by simp [hx]) p hp)

/-- C8, amended: when every given root contains at least one audio file,
add_dirs flips the busy flag true then false around the worker, and after
completion the store contains exactly once (path the unique key, given it
held no duplicates before) every audio-extension file under every given
root, each paired with its tag-read record; re-running the same scan
changes nothing.  The amendment is forced by the early return: a root
with no audio files makes the worker return at once, skipping every later
root (see the counterexample).  The walk and the tag reader
(gonk_types::Song::from is not among the sources, and its type is total)
are abstract parameters. -/
theorem claim_C8_add_dirs (τ : Type) (files : String → List String) (tag : String → τ)
    (dirs : List String) (store : List (String × τ))
    (h1 : ∀ d ∈ dirs, (files d).filter isAudioFile ≠ [])
    (h2 : (storePaths store).Nodup) :
    (addDirs files tag dirs store).busySetAtStart = true
    ∧ (addDirs files tag dirs store).busyAtEnd = false
    ∧ (∀ p, p ∈ storePaths (addDirs files tag dirs store).store
        ↔ p ∈ storePaths store ∨ ∃ d ∈ dirs, p ∈ (files d).filter isAudioFile)
    ∧ (storePaths (addDirs files tag dirs store).store).Nodup
    ∧ (addDirs files tag dirs (addDirs files tag dirs store).store).store
        = (addDirs files tag dirs store).store := by
  refine ⟨rfl, rfl, ?_, ?_, ?_⟩
  · exact fun p => addDirsWorker_mem files tag dirs h1 store p
  · exact addDirsWorker_nodup files tag dirs store h2
  · show addDirsWorker files tag dirs (addDirsWorker files tag dirs store)
      = addDirsWorker files tag dirs store
    apply addDirsWorker_id files tag dirs h1
    intro d hd p hp
    exact (addDirsWorker_mem files tag dirs h1 store p).mpr (Or.inr ⟨d, hd, hp⟩)

/-- C8 witness: the theorem applied to one root holding one mp3 file over
an empty store. -/
theorem claim_C8_add_dirs_witness :
    (∀ d ∈ ["r"], ((fun _ : String => ["x.mp3"]) d).filter isAudioFile ≠ [])
    ∧ (storePaths ([] : List (String × Nat))).Nodup
    ∧ (∀ p, p ∈ storePaths (addDirs (fun _ => ["x.mp3"]) (fun _ => (0 : Nat)) ["r"] []).store
        ↔ p ∈ storePaths ([] : List (String × Nat))
          ∨ ∃ d ∈ ["r"], p ∈ ((fun _ : String => ["x.mp3"]) d).filter isAudioFile) :=
  ⟨by decide, by decide,
    (claim_C8_add_dirs Nat (fun _ => ["x.mp3"]) (fun _ => 0) ["r"] [] (by decide)
      (by decide)).2.2.1⟩

/-- C8 counterexample: with roots [r1, r2] where r1 holds only a.txt (no
audio) and r2 holds x.mp3, the worker returns on the empty first root and
never scans r2: the final store is empty although x.mp3 is an audio file
under a given root, contradicting the claim for every list of scan
roots. -/
theorem claim_C8_cex_early_return :
    (addDirs (fun d => if d = "r1" then ["a.txt"] else ["x.mp3"]) (fun _ => (0 : Nat))
        ["r1", "r2"] []).store = []
    ∧ isAudioFile "x.mp3" = true
    ∧ isAudioFile "a.txt" = false := by
  refine ⟨rfl, by decide, by decide⟩

/-! ### CLI add -/

/-- C9, amended: for the CLI invocation add with a path argument, when
the path exists the root is added and the program does not terminate but
continues into the interactive UI; when the path does not exist the
program prints Invalid path. and returns from main, which terminates the
process with exit code 0, not a non-zero code (see the counterexample). -/
theorem claim_C9_cli_add (pathExists : String → Bool) (removeErr : String → Option String)
    (paths rest : List String) (h : rest ≠ []) :
    (pathExists (String.intercalate " " rest) = true →
      cliMain pathExists removeErr paths ("add" :: rest)
        = CliOutcome.tui [String.intercalate " " rest]
      ∧ cliExitCode (cliMain pathExists removeErr paths ("add" :: rest)) = Option.none)
    ∧ (pathExists (String.intercalate " " rest) = false →
      cliMain pathExists removeErr paths ("add" :: rest)
        = CliOutcome.exit (some "Invalid path.")
      ∧ cliExitCode (cliMain pathExists removeErr paths ("add" :: rest)) = some 0) := by
  constructor
  · intro hp
    have hm : cliMain pathExists removeErr paths ("add" :: rest)
        = CliOutcome.tui [String.intercalate " " rest] := by
      simp only [cliMain]
      rw [if_pos ⟨trivial, h⟩, if_pos hp]
    exact ⟨hm, by rw [hm]; rfl⟩
  · intro hp
    have hm : cliMain pathExists removeErr paths ("add" :: rest)
        = CliOutcome.exit (some "Invalid path.") := by
      simp only [cliMain]
      rw [if_pos ⟨trivial, h⟩, if_neg (by simp [hp])]
    exact ⟨hm, by rw [hm]; rfl⟩

/-- C9 witness: the theorem applied to the argument list add x with a
path-exists oracle answering true, and the same with false. -/
theorem claim_C9_cli_add_witness :
    (["x"] : List String) ≠ []
    ∧ ((fun _ : String => true) (String.intercalate " " ["x"]) = true →
      cliMain (fun _ => true) (fun _ => Option.none) [] ("add" :: ["x"])
        = CliOutcome.tui [String.intercalate " " ["x"]]
      ∧ cliExitCode (cliMain (fun _ => true) (fun _ => Option.none) [] ("add" :: ["x"]))
        = Option.none) :=
  ⟨by decide,
    (claim_C9_cli_add (fun _ => true) (fun _ => Option.none) [] ["x"] (by decide)).1⟩

/-- C9 counterexample: add with a nonexistent path prints Invalid path.
and exits with code 0 -- the claim requires a non-zero exit code. -/
theorem claim_C9_cex_exit_code_zero :
    cliMain (fun _ => false) (fun _ => Option.none) [] ["add", "missing"]
      = CliOutcome.exit (some "Invalid path.")
    ∧ cliExitCode (cliMain (fun _ => false) (fun _ => Option.none) [] ["add", "missing"])
      = some 0 := by
  constructor <;> rfl
